import Mathlib

/-!
# Verification of the `rust_demo` banner program

Shallow embedding of `src/rust_demo/src/main.rs`:

```rust
fn banner(message: &str) -> String {
    format!("*** {} ***", message.to_uppercase())
}

fn main() {
    println!("{}", banner("codex demo"));
}
```

Strings are modelled as Lean `String` (a sequence of Unicode scalar
values, matching Rust's `char` sequence view of `str`). The standard
library call `str::to_uppercase` is modelled character by character.
-/

namespace RustDemo

/-- Embeds Rust's `char::to_uppercase` — the Unicode uppercase full case
mapping applied per character by `str::to_uppercase`. The Rust standard
library's full Unicode table is external to this repository; this model
reproduces it exactly on the Basic Latin and Latin-1 Supplement blocks
(U+0000–U+00FF) and leaves all other code points unchanged. In those
blocks the mapping is: ASCII `a`–`z` map 32 code points down to `A`–`Z`;
U+00B5 MICRO SIGN maps to U+039C GREEK CAPITAL LETTER MU; U+00DF ß maps
to the two-character sequence `SS`; U+00E0–U+00FE map 32 code points
down, except U+00F7 ÷ which is not a letter and is unchanged; U+00FF ÿ
maps to U+0178 Ÿ; every other code point is unchanged. -/
def charToUppercase (c : Char) : List Char :=
  if 97 ≤ c.toNat ∧ c.toNat ≤ 122 then [Char.ofNat (c.toNat - 32)]
  else if c.toNat = 0xB5 then [Char.ofNat 0x39C]
  else if c.toNat = 0xDF then ['S', 'S']
  else if (0xE0 ≤ c.toNat ∧ c.toNat ≤ 0xFE) ∧ c.toNat ≠ 0xF7 then
    [Char.ofNat (c.toNat - 32)]
  else if c.toNat = 0xFF then [Char.ofNat 0x178]
  else [c]

/-- Embeds `str::to_uppercase`: uppercase every character of the string,
concatenating the (possibly multi-character) per-character results. -/
def to_uppercase (s : String) : String :=
  ⟨s.data.flatMap charToUppercase⟩

/-- The fixed opening segment of the format string `"*** {} ***"`:
everything before the `{}` placeholder. -/
def bannerPre : String := "*** "

/-- The fixed closing segment of the format string `"*** {} ***"`:
everything after the `{}` placeholder. -/
def bannerSuf : String := " ***"

/-- Embeds `fn banner(message: &str) -> String`:
`format!("*** {} ***", message.to_uppercase())`. -/
def banner (message : String) : String :=
  bannerPre ++ to_uppercase message ++ bannerSuf

/-- Embeds the observable standard-output of `fn main()`:
`println!("{}", banner("codex demo"))` writes the formatted string
followed by a newline. -/
def main_stdout : String := banner "codex demo" ++ "\n"

/-- Embeds the process exit code of `fn main()`: `main` returns `()`, so
the process exits with code 0. -/
def main_exit_code : Nat := 0

/-! ## Helper lemmas -/

theorem toNat_ofNat_of_lt {n : Nat} (h : n < 55296) : (Char.ofNat n).toNat = n := by
  have hv : n.isValidChar := Or.inl h
  simp [Char.ofNat, hv, Char.ofNatAux, Char.toNat, UInt32.toNat, BitVec.toNat_ofNatLt]

theorem charToUppercase_eq_self {d : Char}
    (h1 : ¬(97 ≤ d.toNat ∧ d.toNat ≤ 122)) (h2 : ¬(d.toNat = 0xB5))
    (h3 : ¬(d.toNat = 0xDF)) (h4 : ¬((0xE0 ≤ d.toNat ∧ d.toNat ≤ 0xFE) ∧ d.toNat ≠ 0xF7))
    (h5 : ¬(d.toNat = 0xFF)) : charToUppercase d = [d] := by
  unfold charToUppercase
  rw [if_neg h1, if_neg h2, if_neg h3, if_neg h4, if_neg h5]

/-- Every character produced by the uppercase mapping is a fixed point of
the uppercase mapping. -/
theorem charToUppercase_fixed {c d : Char} (hd : d ∈ charToUppercase c) :
    charToUppercase d = [d] := by
  unfold charToUppercase at hd
  by_cases h1 : 97 ≤ c.toNat ∧ c.toNat ≤ 122
  · rw [if_pos h1] at hd
    simp only [List.mem_singleton] at hd
    subst hd
    have hm := toNat_ofNat_of_lt (n := c.toNat - 32) (by omega)
    exact charToUppercase_eq_self (by omega) (by omega) (by omega) (by omega) (by omega)
  · rw [if_neg h1] at hd
    by_cases h2 : c.toNat = 0xB5
    · rw [if_pos h2] at hd
      simp only [List.mem_singleton] at hd
      subst hd
      have hm := toNat_ofNat_of_lt (n := 0x39C) (by omega)
      exact charToUppercase_eq_self (by omega) (by omega) (by omega) (by omega) (by omega)
    · rw [if_neg h2] at hd
      by_cases h3 : c.toNat = 0xDF
      · rw [if_pos h3] at hd
        have hS : d = 'S' := by simpa using hd
        subst hS
        decide
      · rw [if_neg h3] at hd
        by_cases h4 : (0xE0 ≤ c.toNat ∧ c.toNat ≤ 0xFE) ∧ c.toNat ≠ 0xF7
        · rw [if_pos h4] at hd
          simp only [List.mem_singleton] at hd
          subst hd
          have hm := toNat_ofNat_of_lt (n := c.toNat - 32) (by omega)
          exact charToUppercase_eq_self (by omega) (by omega) (by omega) (by omega) (by omega)
        · rw [if_neg h4] at hd
          by_cases h5 : c.toNat = 0xFF
          · rw [if_pos h5] at hd
            simp only [List.mem_singleton] at hd
            subst hd
            have hm := toNat_ofNat_of_lt (n := 0x178) (by omega)
            exact charToUppercase_eq_self (by omega) (by omega) (by omega) (by omega) (by omega)
          · rw [if_neg h5] at hd
            simp only [List.mem_singleton] at hd
            subst hd
            exact charToUppercase_eq_self h1 h2 h3 h4 h5

theorem flatMap_of_forall_singleton {f : Char → List Char} :
    ∀ {l : List Char}, (∀ d ∈ l, f d = [d]) → l.flatMap f = l
  | [], _ => rfl
  | a :: t, h => by
    rw [List.flatMap_cons, h a (by simp),
      flatMap_of_forall_singleton (fun d hd => h d (by simp [hd]))]
    rfl

theorem banner_data (s : String) :
    (banner s).data = ['*', '*', '*', ' '] ++ ((to_uppercase s).data ++ [' ', '*', '*', '*']) := by
  have hpre : bannerPre.data = ['*', '*', '*', ' '] := by decide
  have hsuf : bannerSuf.data = [' ', '*', '*', '*'] := by decide
  simp [banner, String.data_append, hpre, hsuf]

/-! ## Claim theorems -/

/-- C1: for every text input `s`, `banner s` equals the literal sequence
three asterisks, one space, the uppercase transform of `s`, one space,
three asterisks — `"*** " ++ to_uppercase s ++ " ***"`. -/
theorem banner_spec (s : String) :
    banner s = "*** " ++ to_uppercase s ++ " ***" := rfl

/-- C2: on program start `main` calls the banner formatter with the fixed
literal `"codex demo"` and writes exactly the line `*** CODEX DEMO ***`
followed by a newline to standard output; the exit code is 0. -/
theorem main_prints_banner :
    main_stdout = banner "codex demo" ++ "\n" ∧
    main_stdout = "*** CODEX DEMO ***\n" ∧
    main_exit_code = 0 :=
  ⟨rfl, by decide, rfl⟩

/-- C3: when uppercasing `s` does not change its character count,
`banner s` has length `s.length + 8`. -/
theorem banner_length_of_uppercase_preserving (s : String)
    (h : (to_uppercase s).length = s.length) :
    (banner s).length = s.length + 8 := by
  have hpre : bannerPre.length = 4 := by decide
  have hsuf : bannerSuf.length = 4 := by decide
  rw [banner, String.length_append, String.length_append, hpre, hsuf, h]
  omega

theorem banner_length_of_uppercase_preserving_witness :
    (to_uppercase "demo").length = ("demo" : String).length ∧
    (banner "demo").length = ("demo" : String).length + 8 :=
  ⟨by decide, banner_length_of_uppercase_preserving "demo" (by decide)⟩

/-- C4: the uppercasing operation used by the banner formatter is
idempotent: uppercasing an already-uppercased string changes nothing. -/
theorem to_uppercase_idempotent (s : String) :
    to_uppercase (to_uppercase s) = to_uppercase s := by
  unfold to_uppercase
  refine congrArg String.mk ?_
  refine flatMap_of_forall_singleton ?_
  intro d hd
  rw [List.mem_flatMap] at hd
  obtain ⟨c, _, hdc⟩ := hd
  exact charToUppercase_fixed hdc

/-- C5 counterexample: the fixed banner segments `"*** "` and `" ***"` do
not each have length three (each has length four). -/
theorem bannerPre_suf_not_length_three :
    ¬(bannerPre.length = 3 ∧ bannerSuf.length = 3) := by decide

/-- C5 amended: the fixed opening segment `"*** "` and the fixed closing
segment `" ***"` of the banner each have length four (three asterisks
plus one space). -/
theorem bannerPre_suf_length_four :
    bannerPre.length = 4 ∧ bannerSuf.length = 4 := by decide

/-- C6: on the empty input the banner is `"***  ***"` — the two asterisk
groups separated by exactly two spaces. -/
theorem banner_empty : banner "" = "***  ***" := by decide

/-- C7: `banner "demo"` is `"*** DEMO ***"`, the behavior checked by the
program's unit test `banner_wraps_text`. -/
theorem banner_demo : banner "demo" = "*** DEMO ***" := by decide

/-- C8: the banner formatter is deterministic and derives its output only
from its input: equal inputs give equal outputs. -/
theorem banner_deterministic (s t : String) (h : s = t) :
    banner s = banner t := congrArg banner h

theorem banner_deterministic_witness :
    ("demo" : String) = "demo" ∧ banner "demo" = banner "demo" :=
  ⟨rfl, banner_deterministic "demo" "demo" rfl⟩

/-- C9: uppercasing can change the character count, so the `len + 8`
relation fails for some inputs: `banner "ß"` is `"*** SS ***"` (the one
character ß maps to the two characters `SS`), whose length differs from
`"ß".length + 8`. -/
theorem banner_eszett :
    banner "ß" = "*** SS ***" ∧ (banner "ß").length ≠ ("ß" : String).length + 8 := by
  decide

/-- C10: every banner has length at least 8, starts with the four
characters `"*** "`, ends with the four characters `" ***"`, and has
length exactly 8 precisely when the uppercased input is empty. -/
theorem banner_shape (s : String) :
    8 ≤ (banner s).length ∧
    ['*', '*', '*', ' '] <+: (banner s).data ∧
    [' ', '*', '*', '*'] <:+ (banner s).data ∧
    ((banner s).length = 8 ↔ to_uppercase s = "") := by
  have hlen : (banner s).length = (banner s).data.length := rfl
  refine ⟨?_, ⟨(to_uppercase s).data ++ [' ', '*', '*', '*'], by rw [banner_data]⟩,
    ⟨['*', '*', '*', ' '] ++ (to_uppercase s).data, by rw [banner_data]; simp⟩, ?_⟩
  · rw [hlen, banner_data]
    simp
  · have hmid : (banner s).data.length = (to_uppercase s).data.length + 8 := by
      rw [banner_data]
      simp only [List.length_append, List.length_cons, List.length_nil]
      omega
    have hempty : ("" : String).data = [] := rfl
    rw [hlen, hmid, String.ext_iff, hempty]
    constructor
    · intro h
      exact List.length_eq_zero.mp (by omega)
    · intro h
      rw [h]
      rfl

end RustDemo
